import Mathlib

/-!
Shallow embedding of the xdg-desktop-parser crate (src/xdg_desktop_file.rs,
src/xdg_desktop_value.rs, src/xdg_parse_error.rs).

Conventions of the embedding:
* Rust strings are Lean `String`s; character-level algorithms work on `String.data`.
* Fallible Rust code returning `crate::Result<T> = Result<T, XdgParseError>` becomes
  `Except XdgParseError T`.
* `HashMap<String, V>` is modelled as an association list with insert-overwrite
  semantics (`insertAssoc`); the claims only inspect contents, never hash order.
* The `onig` regexes are modelled by their matcher semantics on the fixed patterns
  the source compiles:
  - `COMMENT_RE = "#.*"` used with `is_match` holds exactly on lines containing a
    number-sign character;
  - `SECTION_RE = "\[(.*)\]"` used with `is_match` holds exactly on lines containing
    a left bracket followed (not necessarily immediately) by a right bracket, since
    `.` matches every character of a line (lines contain no newline);
  - `VAL_DELIMITER = "(?<!\\);"` used with `Regex::split`. The onig crate's
    `Regex::split` iterates matches left to right and, after the final match, emits
    the remaining text only when it is nonempty (rust-onig inherited the split of
    regex 0.1, whose final-segment check `last >= text.len()` silently drops a
    trailing empty segment). `onigSplitAux` reproduces that scan: an unescaped
    semicolon ends the current segment, and at end of input the pending segment is
    emitted only if nonempty.
  - `LOCALE_SUFFIX = "\[(?:[a-z]{2})(?:_[A-Z]{2})?(?:@\w+)?\]"` used with
    `Regex::replace`, which removes the leftmost match only. Backtracking cannot
    produce a match the greedy scan `localeSuffixLen` misses, because every
    optional-group fallback leaves the cursor on a character that can satisfy no
    later grammar item.
* `f64` is IEEE floating point, which the embedding does not interpret: the only
  facts the claims need about numerics are which strings `str::parse::<f64>`
  accepts (modelled by `rustF64Accepts`, the grammar documented for
  `f64::from_str`) and that conversions carry some payload, so `numeric` stores
  the accepted literal itself.
-/

namespace Xdg

/-- Model of `XdgParseError` (src/xdg_parse_error.rs). The wrapped standard-library
error values carry no information the claims use, so the bool/float cases are
nullary here. -/
inductive XdgParseError where
  | parseBoolError
  | parseFloatError
  | other (msg : String)

/-- Model of the `XdgDesktopValue` enum (src/xdg_desktop_value.rs). The `Numeric`
variant stores the literal accepted by `str::parse::<f64>`; its IEEE value is never
inspected by any claim. -/
inductive XdgDesktopValue where
  | string (s : String)
  | localeString (s : String)
  | iconString (s : String)
  | bool (b : Bool)
  | numeric (raw : String)
  | list (l : List XdgDesktopValue)

/-- A section of a desktop file: `HashMap<String, crate::Result<XdgDesktopValue>>`
modelled as an association list (see `insertAssoc`). -/
abbrev XdgSection := List (String × Except XdgParseError XdgDesktopValue)

/-- Model of the `XdgDesktopFile` struct: its `sections` hash map as an
association list. -/
structure XdgDesktopFile where
  sections : List (String × XdgSection)

/-- Replace the first element of a list of segments; used to prepend a character to
the first segment produced by splitting the rest of a string. -/
def mapFirst (f : List Char → List Char) : List (List Char) → List (List Char)
  | [] => []
  | x :: xs => f x :: xs

/-- Scan of `VAL_DELIMITER.split` (pattern `(?<!\\);`): `prev` is the character
just before `rest` in the original text (the regex lookbehind), `acc` the current
segment reversed. A `;` whose predecessor is not a backslash ends a segment; at end
of input the pending segment is emitted only if nonempty (see the module comment on
rust-onig's split). -/
def onigSplitAux (prev : Option Char) (acc : List Char) : List Char → List (List Char)
  | [] => if acc.isEmpty then [] else [acc.reverse]
  | c :: rest =>
    if c = ';' ∧ prev ≠ some '\\' then
      acc.reverse :: onigSplitAux (some ';') [] rest
    else
      onigSplitAux (some c) (c :: acc) rest

/-- `VAL_DELIMITER.split` on a character list. -/
def onigSplit (s : List Char) : List (List Char) := onigSplitAux none [] s

/-- `VAL_DELIMITER.split` on a string, as used by `parse_plural` and `try_types`. -/
def onigSplitStr (s : String) : List String := (onigSplit s.data).map String.mk

/-- Reference splitter written from the claim text: the string is cut at each `;`
that is not immediately preceded by a backslash, and the escaping backslash is kept
in the emitted segment. Every segment is kept, including a trailing empty one. -/
def splitEscAware : List Char → List (List Char)
  | [] => [[]]
  | [c] => if c = ';' then [[], []] else [[c]]
  | c1 :: c2 :: rest =>
    if c1 = ';' then [] :: splitEscAware (c2 :: rest)
    else if c1 = '\\' ∧ c2 = ';' then mapFirst (fun t => c1 :: c2 :: t) (splitEscAware rest)
    else mapFirst (fun t => c1 :: t) (splitEscAware (c2 :: rest))

/-- Drop the last segment when it is empty: the engine's emission rule for the text
after the final delimiter match. -/
def dropLastEmpty : List (List Char) → List (List Char)
  | [] => []
  | [x] => if x.isEmpty then [] else [x]
  | x :: y :: xs => x :: dropLastEmpty (y :: xs)

/-- Count and strip the longest prefix of characters satisfying `p`. -/
def takeCount (p : Char → Bool) : List Char → Nat × List Char
  | [] => (0, [])
  | c :: rest =>
    if p c then
      let (n, r) := takeCount p rest
      (n + 1, r)
    else (0, c :: rest)

/-- ASCII lowercase letter, the regex class of one lowercase letter. -/
def isLowerAZ (c : Char) : Bool := 'a' ≤ c && c ≤ 'z'

/-- ASCII uppercase letter, the regex class of one uppercase letter. -/
def isUpperAZ (c : Char) : Bool := 'A' ≤ c && c ≤ 'Z'

/-- The regex word-character class: ASCII letters, digits, or underscore. -/
def isWordChar (c : Char) : Bool := c.isAlphanum || c == '_'

/-- Length of a match of `LOCALE_SUFFIX` starting at the head of `cs`, if any:
a bracket, two lowercase letters, an optional underscore with two uppercase
letters, an optional at-sign with one or more word characters, a closing bracket.
When an optional group's lead character is present but its body fails, the regex
falls back to skipping the group, and the cursor then sits on that lead character,
which matches neither the other optional group nor the closing bracket; the greedy
scan below therefore computes exactly the backtracking matcher's result. -/
def localeSuffixLen (cs : List Char) : Option Nat :=
  match cs with
  | '[' :: a :: b :: rest =>
    if isLowerAZ a && isLowerAZ b then
      let (n1, r1) :=
        match rest with
        | '_' :: x :: y :: r => if isUpperAZ x && isUpperAZ y then ((3 : Nat), r) else (0, rest)
        | _ => (0, rest)
      let (n2, r2) :=
        match r1 with
        | '@' :: r =>
          let (m, rr) := takeCount isWordChar r
          if m ≠ 0 then (1 + m, rr) else ((0 : Nat), r1)
        | _ => (0, r1)
      match r2 with
      | ']' :: _ => some (3 + n1 + n2 + 1)
      | _ => none
    else none
  | _ => none

/-- Scan of `LOCALE_SUFFIX.replace(s, "")`: remove the leftmost match, keep
everything else. -/
def stripLocaleList : List Char → List Char
  | [] => []
  | c :: rest =>
    match localeSuffixLen (c :: rest) with
    | some n => (c :: rest).drop n
    | none => c :: stripLocaleList rest

/-- Model of `XdgDesktopValue::strip_locale`. -/
def strip_locale (s : String) : String := String.mk (stripLocaleList s.data)

/-- Model of `XdgDesktopValue::parse_string`; it cannot fail. -/
def parse_string (s : String) : Except XdgParseError XdgDesktopValue :=
  .ok (.string s)

/-- Model of `XdgDesktopValue::parse_locale_string`; it cannot fail. -/
def parse_locale_string (s : String) : Except XdgParseError XdgDesktopValue :=
  .ok (.localeString s)

/-- Model of `XdgDesktopValue::parse_icon_string`; it cannot fail. -/
def parse_icon_string (s : String) : Except XdgParseError XdgDesktopValue :=
  .ok (.iconString s)

/-- Model of `XdgDesktopValue::parse_bool`: `str::parse::<bool>` accepts exactly
the two case-sensitive literals. -/
def parse_bool (s : String) : Except XdgParseError XdgDesktopValue :=
  if s = "true" then .ok (.bool true)
  else if s = "false" then .ok (.bool false)
  else .error .parseBoolError

/-- Exponent tail of the `f64::from_str` grammar after the `e`/`E`: an optional
sign and one or more digits, ending the string. -/
def acceptsExpTail (s : List Char) : Bool :=
  let s1 :=
    match s with
    | c :: r => if c == '+' || c == '-' then r else s
    | [] => s
  let (n, r) := takeCount Char.isDigit s1
  decide (n ≠ 0) && r.isEmpty

/-- After the mantissa of the `f64::from_str` grammar: either the end of the
string or an exponent. -/
def acceptsExpOrEnd : List Char → Bool
  | [] => true
  | c :: r => (c == 'e' || c == 'E') && acceptsExpTail r

/-- Acceptance of the grammar documented for `f64::from_str`: an optional sign,
then a case-insensitive infinity or nan literal or a number, where a number is
digits with an optional point and fraction, or a point with digits, each followed
by an optional exponent. -/
def rustF64Accepts (cs : List Char) : Bool :=
  let body :=
    match cs with
    | c :: r => if c == '+' || c == '-' then r else cs
    | [] => cs
  let low := body.map Char.toLower
  if low = ("inf".data) ∨ low = ("infinity".data) ∨ low = ("nan".data) then true
  else
    let (n, r) := takeCount Char.isDigit body
    if n ≠ 0 then
      match r with
      | '.' :: t => acceptsExpOrEnd (takeCount Char.isDigit t).2
      | _ => acceptsExpOrEnd r
    else
      match body with
      | '.' :: t =>
        let (m, r2) := takeCount Char.isDigit t
        decide (m ≠ 0) && acceptsExpOrEnd r2
      | _ => false

/-- Model of `XdgDesktopValue::parse_numeric`: the IEEE value of an accepted
literal is never inspected by a claim, so the literal itself is the payload. -/
def parse_numeric (s : String) : Except XdgParseError XdgDesktopValue :=
  if rustF64Accepts s.data then .ok (.numeric s) else .error .parseFloatError

/-- Model of `XdgDesktopValue::parse_plural`: split on the delimiter, parse every
element with `f`, fail on the first element failure. -/
def parse_plural (f : String → Except XdgParseError XdgDesktopValue) (s : String) :
    Except XdgParseError XdgDesktopValue :=
  ((onigSplitStr s).mapM f).map XdgDesktopValue.list

/-- Loop of `XdgDesktopValue::try_types` over the delimiter-split elements. While
no conversion is committed, the source probes `parse_bool`, `parse_numeric`,
`parse_string` in order on the WHOLE input `s` (the source applies `f` to `s`,
not to the loop variable `v`), pushes that whole-input result, and commits the
succeeding conversion; committed conversions apply to the element and propagate
their errors. -/
def tryTypesGo (s : String) :
    Option (String → Except XdgParseError XdgDesktopValue) → List String →
    Except XdgParseError (List XdgDesktopValue)
  | _, [] => .ok []
  | some f, v :: rest =>
    match f v with
    | .ok x => (tryTypesGo s (some f) rest).map (x :: ·)
    | .error e => .error e
  | none, _ :: rest =>
    match parse_bool s with
    | .ok x => (tryTypesGo s (some parse_bool) rest).map (x :: ·)
    | .error _ =>
      match parse_numeric s with
      | .ok x => (tryTypesGo s (some parse_numeric) rest).map (x :: ·)
      | .error _ =>
        match parse_string s with
        | .ok x => (tryTypesGo s (some parse_string) rest).map (x :: ·)
        | .error e => .error e

/-- Model of `XdgDesktopValue::try_types`. -/
def try_types (s : String) : Except XdgParseError XdgDesktopValue :=
  (tryTypesGo s none (onigSplitStr s)).map XdgDesktopValue.list

/-- The six keys mapped to `parse_bool` in `from_kv`. -/
def boolKeys : List String :=
  [("NoDisplay"), ("Hidden"), ("Terminal"), ("StartupNotify"),
   ("PrefersNonDefaultGPU"), ("DBusActivatable")]

/-- The key table of `XdgDesktopValue::from_kv`: exact match on the base key
selects the conversion, any other key falls back to `try_types`. -/
def selectParseFn (keyBase : String) : String → Except XdgParseError XdgDesktopValue :=
  match keyBase with
  | "Type" | "Version" | "Exec" | "TryExec" | "Path" | "StartupWMClass" | "URL" =>
    parse_string
  | "Name" | "GenericName" | "Comment" => parse_locale_string
  | "NoDisplay" | "Hidden" | "Terminal" | "StartupNotify" | "PrefersNonDefaultGPU"
  | "DBusActivatable" => parse_bool
  | "Icon" => parse_icon_string
  | "Keywords" => parse_plural parse_locale_string
  | "OnlyShowIn" | "NotShowIn" | "Actions" | "MimeType" | "Categories" | "Implements" =>
    parse_plural parse_string
  | _ => try_types

/-- Model of `str::split_once('=')`: cut at the first equals sign. -/
def splitOnceEqAux : List Char → Option (List Char × List Char)
  | [] => none
  | '=' :: rest => some ([], rest)
  | c :: rest => (splitOnceEqAux rest).map (fun p => (c :: p.1, p.2))

/-- Model of `XdgDesktopValue::from_kv`: split the line at the first equals sign
(whole line as key plus an error when there is none), strip the locale suffix from
the key for table lookup, apply the selected conversion to the value. -/
def from_kv (s : String) : String × Except XdgParseError XdgDesktopValue :=
  match splitOnceEqAux s.data with
  | none => (s, .error (.other ("No delimiter found in line")))
  | some (kcs, vcs) =>
    let k := String.mk kcs
    (k, selectParseFn (strip_locale k) (String.mk vcs))

/-- Matcher of `COMMENT_RE` (`#.*`) joined with `line.trim().is_empty()`: the
first arm of the line classification skips a line containing a number sign
anywhere or consisting of whitespace only. -/
def isCommentOrBlank (ln : String) : Bool :=
  ln.data.contains '#' || ln.data.all Char.isWhitespace

/-- Matcher of `SECTION_RE` (`\[(.*)\]`): a left bracket with a right bracket
somewhere after it. -/
def hasBracketPair : List Char → Bool
  | [] => false
  | c :: rest => (c = '[' && rest.contains ']') || hasBracketPair rest

/-- Second arm of the line classification. -/
def isSectionLine (ln : String) : Bool := hasBracketPair ln.data

/-- `HashMap::insert` on the association-list model: overwrite the entry of an
existing key in place, otherwise append. -/
def insertAssoc {α : Type} (m : List (String × α)) (k : String) (v : α) : List (String × α) :=
  match m with
  | [] => [(k, v)]
  | (k', v') :: rest => if k' = k then (k, v) :: rest else (k', v') :: insertAssoc rest k v

/-- Loop state of `XdgDesktopFile::from_str`: the result map, the accumulator of
the open section, and the open section's header line. -/
structure ParseState where
  sections : List (String × XdgSection)
  current : XdgSection
  header : Option String

/-- One iteration of the `from_str` line loop: skip comments and blank lines;
on a section line flush the open accumulator (even when empty) under the previous
header and open a new one under the whole line; otherwise treat the line as
key/value, failing when no header is open. -/
def stepLine (st : ParseState) (ln : String) : Except XdgParseError ParseState :=
  if isCommentOrBlank ln then .ok st
  else if isSectionLine ln then
    match st.header with
    | some h => .ok ⟨insertAssoc st.sections h st.current, [], some ln⟩
    | none => .ok ⟨st.sections, st.current, some ln⟩
  else
    match st.header with
    | none => .error (.other ("File contains keys without section header"))
    | some _ =>
      let (k, v) := from_kv ln
      .ok { st with current := insertAssoc st.current k v }

/-- End-of-input handling of `from_str`: a nonempty accumulator is flushed under
its header; an empty one is dropped. -/
def finalize (st : ParseState) : Except XdgParseError XdgDesktopFile :=
  if st.current.isEmpty then .ok ⟨st.sections⟩
  else
    match st.header with
    | some h => .ok ⟨insertAssoc st.sections h st.current⟩
    | none => .error (.other ("File contains keys without section header"))

/-- The `from_str` line loop with its early return on structural errors. -/
def from_str_go (st : ParseState) : List String → Except XdgParseError XdgDesktopFile
  | [] => finalize st
  | ln :: rest =>
    match stepLine st ln with
    | .ok st' => from_str_go st' rest
    | .error e => .error e

/-- Split at every newline, keeping all segments. -/
def splitOnNl : List Char → List (List Char)
  | [] => [[]]
  | '\n' :: rest => [] :: splitOnNl rest
  | c :: rest => mapFirst (fun t => c :: t) (splitOnNl rest)

/-- Strip one carriage return at the end of a newline-terminated line. -/
def stripCR (l : List Char) : List Char :=
  if l.getLast? = some '\r' then l.dropLast else l

/-- Model of `str::lines()`: split at newlines, strip one carriage return from
each newline-terminated line, and drop the empty segment after a final newline;
a last line without a newline keeps a bare carriage return. -/
def rustLines (s : String) : List String :=
  let parts := splitOnNl s.data
  let terminated := (parts.dropLast.map stripCR).map String.mk
  match parts.getLast? with
  | some [] | none => terminated
  | some l => terminated ++ [String.mk l]

/-- Model of `XdgDesktopFile::from_str`. -/
def from_str (s : String) : Except XdgParseError XdgDesktopFile :=
  from_str_go ⟨[], [], none⟩ (rustLines s)

/-- Whether an `Except` is an error. -/
def isErr {ε α : Type} : Except ε α → Bool
  | .error _ => true
  | .ok _ => false

/-- The structural-failure condition of the file parser, written from the claim:
the first line that is neither skipped as comment or blank nor classified as a
section header, if any, comes before any section header. -/
def firstNonSkipIsKv : List String → Bool
  | [] => false
  | ln :: rest =>
    if isCommentOrBlank ln then firstNonSkipIsKv rest
    else !(isSectionLine ln)

/-- The four-line end-to-end example input of the specification. -/
def c1Input : String :=
  "[Desktop Entry]\nName=Test App\nTerminal=false\nCategories=Utility;Development;\n"

mutual

/-- Stack-depth-indexed model of `ToString::to_string` for `XdgDesktopValue`: the
blanket `ToString` impl formats through `Display::fmt` (see `displayFuel`); each
call consumes one stack frame, `none` is stack exhaustion. -/
def toStringFuel : Nat → XdgDesktopValue → Option String
  | 0, _ => none
  | n + 1, v => displayFuel n v

/-- Stack-depth-indexed model of the source's `Display::fmt`, which writes
`self.to_string()` — the `ToString` blanket impl over `Display` itself. -/
def displayFuel : Nat → XdgDesktopValue → Option String
  | 0, _ => none
  | n + 1, v => toStringFuel n v

end

/-- Stack-depth-indexed model of the source's `Into<String>` conversion: string
variants pass through, booleans and numerics render their literal, and a list
maps `XdgDesktopValue::to_string` (the `Display`-based method, `toStringFuel`)
over its elements and appends a semicolon after each. -/
def intoStringFuel (fuel : Nat) : XdgDesktopValue → Option String
  | .string s => some s
  | .localeString s => some s
  | .iconString s => some s
  | .bool b => some (if b then ("true") else ("false"))
  | .numeric raw => some raw
  | .list l =>
    (l.mapM (toStringFuel fuel)).map (fun parts => String.join (parts.map (fun e => e ++ (";"))))

end Xdg

namespace Xdg

/-- The committed conversion never comes back: `toStringFuel`/`displayFuel` call
only each other, so no stack depth produces a result for any value. -/
theorem toStringFuel_eq_none (n : Nat) (v : XdgDesktopValue) :
    toStringFuel n v = none ∧ displayFuel n v = none := by
  induction n generalizing v with
  | zero => exact ⟨rfl, rfl⟩
  | succ n ih => exact ⟨(ih v).2, (ih v).1⟩

/-- C8: applying the locale-suffix stripping function to the four key strings
Name, Name[es], Name[es_CL] and Name[sr@Latn] yields the base key Name in all
four cases. -/
theorem c8_strip_locale_examples :
    strip_locale ("Name") = ("Name") ∧ strip_locale ("Name[es]") = ("Name") ∧
    strip_locale ("Name[es_CL]") = ("Name") ∧ strip_locale ("Name[sr@Latn]") = ("Name") :=
  ⟨rfl, rfl, rfl, rfl⟩

/-- C1 counterexample: on the four-line example input the parse succeeds with a
single section, but that section is stored under the entire header line
"[Desktop Entry]" (brackets included), so no section named "Desktop Entry"
exists, contrary to the claim. -/
theorem c1_counterexample :
    (from_str c1Input).toOption.map (fun f => f.sections.map Prod.fst)
      = some (["[Desktop Entry]"]) ∧
    (from_str c1Input).toOption.map (fun f => f.sections.lookup ("Desktop Entry"))
      = some none :=
  ⟨rfl, rfl⟩

/-- C1 (amended): parsing the four-line example succeeds and yields exactly one
section, stored under the whole header line "[Desktop Entry]", whose mapping is
Name to Ok LocaleString "Test App", Terminal to Ok Bool false, and Categories to
Ok List [String "Utility", String "Development"] with no extra empty trailing
element, and no other keys or sections. -/
theorem c1_example_parse :
    from_str c1Input =
      Except.ok ⟨[(("[Desktop Entry]"),
        [(("Name"), Except.ok (XdgDesktopValue.localeString ("Test App"))),
         (("Terminal"), Except.ok (XdgDesktopValue.bool false)),
         (("Categories"), Except.ok (XdgDesktopValue.list
           [XdgDesktopValue.string ("Utility"), XdgDesktopValue.string ("Development")]))])]⟩ :=
  rfl

/-- C3: evaluation of the code at the failing input. For the unrecognized key X
with the two-element value "true;false" the fallback probes the parse functions
on the whole value string instead of the first element, so the committed
conversion is the string one and the first list element is the entire value:
the result is List [String "true;false", String "false"], not the claim's
List [Bool true, Bool false]. -/
theorem c3_trytypes_whole_string_probe :
    from_kv ("X=true;false") =
      (("X"), Except.ok (XdgDesktopValue.list
        [XdgDesktopValue.string ("true;false"), XdgDesktopValue.string ("false")])) :=
  rfl

/-- C9 counterexample: in "[A]\n[B]" the header [A] accumulates no entries, yet
when the next header arrives the accumulator is flushed unconditionally, so the
parse succeeds with an EMPTY section stored under "[A]" — the claim says such a
header never appears as a section. -/
theorem c9_counterexample :
    (from_str ("[A]\n[B]")).toOption.map (fun f => f.sections)
      = some ([(("[A]"), ([] : XdgSection))]) :=
  rfl

end Xdg

namespace Xdg

/-- C10: evaluation of the code at the failing input. Converting the list
List [String "a", String "b"] to its display string never terminates: at every
stack depth both the `Display`-based `to_string` and the `Into<String>`
conversion (whose list branch maps `to_string` over the elements) produce no
result, because `Display::fmt` calls `self.to_string()`, the `ToString` blanket
impl defined through `Display::fmt` itself. The claim says the conversion
terminates with "a;b;". -/
theorem c10_display_never_terminates :
    ∀ fuel : Nat,
      toStringFuel fuel
        (XdgDesktopValue.list [XdgDesktopValue.string ("a"), XdgDesktopValue.string ("b")])
        = none ∧
      intoStringFuel fuel
        (XdgDesktopValue.list [XdgDesktopValue.string ("a"), XdgDesktopValue.string ("b")])
        = none := by
  intro fuel
  refine ⟨(toStringFuel_eq_none fuel _).1, ?_⟩
  have h := (toStringFuel_eq_none fuel (XdgDesktopValue.string ("a"))).1
  simp [intoStringFuel, List.mapM.loop, h]

/-- C6: a line containing a number sign anywhere matches `COMMENT_RE` (`#.*`),
so the first classification arm skips it with no state change; in particular a
key/value-looking line whose key or value contains a number sign produces no
entry. -/
theorem c6_hash_line_skipped :
    ∀ (st : ParseState) (ln : String), '#' ∈ ln.data → stepLine st ln = .ok st := by
  intro st ln h
  have hc : isCommentOrBlank ln = true := by
    simp [isCommentOrBlank]
    exact Or.inl h
  simp [stepLine, hc]

/-- C6 witness: a key/value-looking line with a number sign inside its value is
skipped, leaving the state untouched. -/
theorem c6_hash_line_skipped_witness :
    stepLine ⟨[], [], some ("[D]")⟩ ("Key=va#lue") = .ok ⟨[], [], some ("[D]")⟩ :=
  c6_hash_line_skipped ⟨[], [], some ("[D]")⟩ ("Key=va#lue") (by decide)

end Xdg

namespace Xdg

/-- The `SECTION_RE` matcher holds exactly when some left bracket has a right
bracket somewhere after it. -/
theorem hasBracketPair_iff (l : List Char) :
    hasBracketPair l = true ↔ ∃ i j, i < j ∧ l.get? i = some '[' ∧ l.get? j = some ']' := by
  induction l with
  | nil => simp [hasBracketPair]
  | cons c rest ih =>
    simp only [hasBracketPair, Bool.or_eq_true, Bool.and_eq_true, decide_eq_true_eq, ih]
    constructor
    · rintro (⟨rfl, hm⟩ | ⟨i, j, hij, h1, h2⟩)
      · have hm' : ']' ∈ rest := by simpa using hm
        obtain ⟨j, hj, hjv⟩ := List.mem_iff_getElem.mp hm'
        refine ⟨0, j + 1, Nat.succ_pos _, rfl, ?_⟩
        simp [List.get?_cons_succ, List.get?_eq_getElem?, List.getElem?_eq_getElem hj, hjv]
      · exact ⟨i + 1, j + 1, by omega, h1, h2⟩
    · rintro ⟨i, j, hij, h1, h2⟩
      cases i with
      | zero =>
        left
        refine ⟨by simpa using h1, ?_⟩
        obtain ⟨j', rfl⟩ : ∃ j', j = j' + 1 := ⟨j - 1, by omega⟩
        have hj : rest.get? j' = some ']' := by simpa using h2
        have : ']' ∈ rest := List.get?_mem hj
        simpa using this
      | succ i =>
        right
        obtain ⟨j', rfl⟩ : ∃ j', j = j' + 1 := ⟨j - 1, by omega⟩
        exact ⟨i, j', by omega, by simpa using h1, by simpa using h2⟩

/-- C2: a line that is not skipped as comment or blank and contains a bracketed
substring anywhere is classified as a section header: the loop flushes the open
accumulator (if a header is open), stores the ENTIRE line text as the new section
header, and never hands the line to the value parser — the accumulator receives
no key/value entry from it. -/
theorem c2_bracket_line_is_section :
    ∀ (st : ParseState) (ln : String), isCommentOrBlank ln = false →
    (∃ i j, i < j ∧ ln.data.get? i = some '[' ∧ ln.data.get? j = some ']') →
    stepLine st ln =
      .ok ⟨(match st.header with
            | some h => insertAssoc st.sections h st.current
            | none => st.sections),
           (match st.header with
            | some _ => ([] : XdgSection)
            | none => st.current),
           some ln⟩ := by
  intro st ln hc hex
  have hs : isSectionLine ln = true := (hasBracketPair_iff ln.data).mpr hex
  cases hh : st.header with
  | some h => simp [stepLine, hc, hs, hh]
  | none => simp [stepLine, hc, hs, hh]

/-- C2 witness: the key/value-looking line with a locale-qualified key
"Name[es]=Foo" is treated as a section header whose name is the whole line. -/
theorem c2_bracket_line_is_section_witness :
    stepLine ⟨[], [], none⟩ ("Name[es]=Foo") = .ok ⟨[], [], some ("Name[es]=Foo")⟩ := by
  have h := c2_bracket_line_is_section ⟨[], [], none⟩ ("Name[es]=Foo") (by decide)
    ⟨4, 7, by decide, by decide, by decide⟩
  simpa using h

end Xdg

namespace Xdg

/-- Splitting at the first equals sign of `k ++ "=" ++ v` returns `(k, v)` when
`k` contains no equals sign itself. -/
theorem splitOnceEqAux_append (k v : List Char) (h : '=' ∉ k) :
    splitOnceEqAux (k ++ '=' :: v) = some (k, v) := by
  induction k with
  | nil => rfl
  | cons c rest ih =>
    have hc : c ≠ '=' := fun hh => h (hh ▸ List.mem_cons_self _ _)
    have ih' := ih (fun hm => h (List.mem_cons_of_mem _ hm))
    simp only [List.cons_append]
    rw [splitOnceEqAux]
    · rw [ih']; rfl
    · exact fun hh => hc hh

/-- On a line `k ++ "=" ++ v` whose key holds no equals sign, `from_kv` returns
the key and the table-selected conversion applied to the value. -/
theorem from_kv_concat (k v : String) (h : '=' ∉ k.data) :
    from_kv (k ++ ("=") ++ v) = (k, selectParseFn (strip_locale k) v) := by
  unfold from_kv
  rw [show (k ++ ("=") ++ v).data = k.data ++ '=' :: v.data from by
        simp [String.data_append]]
  rw [splitOnceEqAux_append _ _ h]

/-- C7: for each of the six boolean keys, the value parser returns Ok Bool true
for the value "true", Ok Bool false for "false", and a bool conversion error for
every other value string — the two literals are matched case-sensitively. -/
theorem c7_bool_keys :
    ∀ (k v : String), k ∈ boolKeys →
    from_kv (k ++ ("=") ++ v) =
      (k, if v = ("true") then Except.ok (XdgDesktopValue.bool true)
          else if v = ("false") then Except.ok (XdgDesktopValue.bool false)
          else Except.error XdgParseError.parseBoolError) := by
  intro k v hk
  fin_cases hk <;> rw [from_kv_concat _ _ (by decide)] <;> rfl

/-- C7 witness: the Terminal key at the three values "true", "false" and "True"
(the last spelled with a capital letter, hence rejected). -/
theorem c7_bool_keys_witness :
    from_kv (("Terminal") ++ ("=") ++ ("true"))
      = (("Terminal"), Except.ok (XdgDesktopValue.bool true)) ∧
    from_kv (("Terminal") ++ ("=") ++ ("false"))
      = (("Terminal"), Except.ok (XdgDesktopValue.bool false)) ∧
    from_kv (("Terminal") ++ ("=") ++ ("True"))
      = (("Terminal"), Except.error XdgParseError.parseBoolError) := by
  refine ⟨?_, ?_, ?_⟩
  · have h := c7_bool_keys ("Terminal") ("true") (by decide)
    rw [h]; rfl
  · have h := c7_bool_keys ("Terminal") ("false") (by decide)
    rw [h]; rfl
  · have h := c7_bool_keys ("Terminal") ("True") (by decide)
    rw [h]; rfl

end Xdg

namespace Xdg

/-- Once a section header is open, one loop iteration always succeeds and keeps
a header open. -/
theorem stepLine_header_some (st : ParseState) (ln : String) (h : st.header.isSome = true) :
    ∃ st', stepLine st ln = .ok st' ∧ st'.header.isSome = true := by
  obtain ⟨hd, hh⟩ := Option.isSome_iff_exists.mp h
  by_cases hc : isCommentOrBlank ln
  · exact ⟨st, by simp [stepLine, hc], h⟩
  · by_cases hs : isSectionLine ln
    · refine ⟨⟨insertAssoc st.sections hd st.current, [], some ln⟩, ?_, rfl⟩
      simp [stepLine, hc, hs, hh]
    · refine ⟨{ st with current := insertAssoc st.current (from_kv ln).1 (from_kv ln).2 },
        ?_, by simpa using h⟩
      simp [stepLine, hc, hs, hh]

/-- Once a section header is open, the rest of the parse can no longer fail. -/
theorem from_str_go_ok_of_header_some :
    ∀ (ls : List String) (st : ParseState), st.header.isSome = true →
    isErr (from_str_go st ls) = false := by
  intro ls
  induction ls with
  | nil =>
    intro st h
    obtain ⟨hd, hh⟩ := Option.isSome_iff_exists.mp h
    unfold from_str_go finalize
    by_cases hcur : st.current.isEmpty <;> simp [hcur, hh, isErr]
  | cons ln rest ih =>
    intro st h
    obtain ⟨st', hstep, h'⟩ := stepLine_header_some st ln h
    unfold from_str_go
    rw [hstep]
    exact ih st' h'

/-- From the initial no-header state, the parse fails exactly when the first
line that is neither skipped nor a section header exists. -/
theorem from_str_go_err_iff :
    ∀ (ls : List String) (st : ParseState), st.header = none → st.current = [] →
    isErr (from_str_go st ls) = firstNonSkipIsKv ls := by
  intro ls
  induction ls with
  | nil =>
    intro st hh hc
    unfold from_str_go finalize
    simp [hc, isErr, firstNonSkipIsKv]
  | cons ln rest ih =>
    intro st hh hc
    unfold from_str_go
    by_cases hcb : isCommentOrBlank ln
    · rw [show stepLine st ln = .ok st from by simp [stepLine, hcb]]
      rw [ih st hh hc]
      simp [firstNonSkipIsKv, hcb]
    · by_cases hs : isSectionLine ln
      · rw [show stepLine st ln = .ok ⟨st.sections, st.current, some ln⟩ from by
            simp [stepLine, hcb, hs, hh]]
        rw [from_str_go_ok_of_header_some rest ⟨st.sections, st.current, some ln⟩ rfl]
        simp [firstNonSkipIsKv, hcb, hs]
      · rw [show stepLine st ln = .error (.other ("File contains keys without section header"))
              from by simp [stepLine, hcb, hs, hh]]
        simp [isErr, firstNonSkipIsKv, hcb, hs]

/-- C4: the file-level parse returns an error exactly when some line classified
as key/value (neither skipped nor a section header) is reached while no section
header has been opened; and, with a header open, a key/value line — whatever the
value parser returns for it, error included — is always stored as that key's
entry in the current accumulator and never fails the parse. -/
theorem c4_structural_error_iff :
    (∀ s : String, isErr (from_str s) = firstNonSkipIsKv (rustLines s)) ∧
    (∀ (st : ParseState) (ln : String), st.header.isSome = true →
      isCommentOrBlank ln = false → isSectionLine ln = false →
      stepLine st ln
        = .ok { st with current := insertAssoc st.current (from_kv ln).1 (from_kv ln).2 }) := by
  constructor
  · intro s
    exact from_str_go_err_iff (rustLines s) ⟨[], [], none⟩ rfl rfl
  · intro st ln h hcb hs
    obtain ⟨hd, hh⟩ := Option.isSome_iff_exists.mp h
    simp [stepLine, hcb, hs, hh]

/-- C4 witness: the file whose first line is a key/value line fails, and a
failing boolean value is stored as the key's entry without failing the step. -/
theorem c4_structural_error_iff_witness :
    isErr (from_str ("Name=x")) = true ∧
    stepLine ⟨[], [], some ("[D]")⟩ ("Terminal=yes")
      = .ok ⟨[], [(("Terminal"), Except.error XdgParseError.parseBoolError)], some ("[D]")⟩ := by
  constructor
  · exact (c4_structural_error_iff.1 ("Name=x")).trans (by decide)
  · have h := c4_structural_error_iff.2 ⟨[], [], some ("[D]")⟩ ("Terminal=yes") rfl
      (by decide) (by decide)
    rw [h]; rfl

end Xdg

namespace Xdg

/-- C9 (amended): comments and blank lines change no state, and an accumulator
that is still empty at end-of-input adds no section — so a header followed only
by comments and blanks until the end of the text, or by nothing, contributes no
section; but when the next section header arrives while the open header's
accumulator is empty, the flush is unconditional and an EMPTY section is stored
under the previous header. -/
theorem c9_empty_section_flush :
    (∀ (st : ParseState) (ln : String), isCommentOrBlank ln = true → stepLine st ln = .ok st) ∧
    (∀ (sections : List (String × XdgSection)) (hdr : Option String),
      finalize ⟨sections, [], hdr⟩ = .ok ⟨sections⟩) ∧
    (∀ (st : ParseState) (ln hdr : String), st.header = some hdr → st.current = [] →
      isCommentOrBlank ln = false → isSectionLine ln = true →
      stepLine st ln = .ok ⟨insertAssoc st.sections hdr [], [], some ln⟩) := by
  refine ⟨?_, ?_, ?_⟩
  · intro st ln h
    simp [stepLine, h]
  · intro sections hdr
    simp [finalize]
  · intro st ln hdr hh hcur hcb hs
    simp [stepLine, hcb, hs, hh, hcur]

/-- C9 witness: a comment under an open header changes nothing, the empty
accumulator is dropped at end-of-input, and the header transition from [A] to
[B] inserts the empty section [A]. -/
theorem c9_empty_section_flush_witness :
    stepLine ⟨[], [], some ("[A]")⟩ ("# note") = .ok ⟨[], [], some ("[A]")⟩ ∧
    finalize ⟨[(("[A]"), ([] : XdgSection))], [], some ("[B]")⟩
      = .ok ⟨[(("[A]"), ([] : XdgSection))]⟩ ∧
    stepLine ⟨[], [], some ("[A]")⟩ ("[B]")
      = .ok ⟨[(("[A]"), ([] : XdgSection))], [], some ("[B]")⟩ := by
  refine ⟨?_, ?_, ?_⟩
  · exact c9_empty_section_flush.1 ⟨[], [], some ("[A]")⟩ ("# note") (by decide)
  · exact c9_empty_section_flush.2.1 [(("[A]"), ([] : XdgSection))] (some ("[B]"))
  · have h := c9_empty_section_flush.2.2 ⟨[], [], some ("[A]")⟩ ("[B]") ("[A]") rfl rfl
      (by decide) (by decide)
    rw [h]; rfl

end Xdg

namespace Xdg

/-- Composing two first-segment rewrites. -/
theorem mapFirst_mapFirst (f g : List Char → List Char) (l : List (List Char)) :
    mapFirst f (mapFirst g l) = mapFirst (fun x => f (g x)) l := by
  cases l <;> rfl

/-- The identity rewrite of the first segment changes nothing. -/
theorem mapFirst_id (l : List (List Char)) : mapFirst (fun t => t) l = l := by
  cases l <;> rfl

/-- One engine step at an unescaped semicolon: emit the pending segment. -/
theorem onigSplitAux_cons_split (prev : Option Char) (acc rest : List Char)
    (hp : prev ≠ some '\\') :
    onigSplitAux prev acc (';' :: rest) = acc.reverse :: onigSplitAux (some ';') [] rest := by
  rw [onigSplitAux]
  exact if_pos ⟨rfl, hp⟩

/-- One engine step at any other character: extend the pending segment. -/
theorem onigSplitAux_cons_nosplit (prev : Option Char) (acc : List Char) (c : Char)
    (rest : List Char) (h : ¬(c = ';' ∧ prev ≠ some '\\')) :
    onigSplitAux prev acc (c :: rest) = onigSplitAux (some c) (c :: acc) rest := by
  rw [onigSplitAux]
  exact if_neg h

/-- The reference split always emits at least one segment. -/
theorem splitEscAware_ne_nil : ∀ (s : List Char), splitEscAware s ≠ [] := by
  intro s
  induction s using splitEscAware.induct with
  | case1 => simp [splitEscAware]
  | case2 => simp [splitEscAware]
  | case3 c h => simp [splitEscAware, h]
  | case4 c2 rest ih => simp [splitEscAware]
  | case5 c1 c2 rest h1 h2 ih =>
    obtain ⟨rfl, rfl⟩ := h2
    cases hsp : splitEscAware rest with
    | nil => exact absurd hsp ih
    | cons a l => simp [splitEscAware, hsp, mapFirst]
  | case6 c1 c2 rest h1 h2 ih =>
    cases hsp : splitEscAware (c2 :: rest) with
    | nil => exact absurd hsp ih
    | cons a l => simp [splitEscAware, h1, h2, hsp, mapFirst]

/-- Dropping the trailing empty segment skips over earlier segments. -/
theorem dropLastEmpty_cons (x : List Char) (l : List (List Char)) (h : l ≠ []) :
    dropLastEmpty (x :: l) = x :: dropLastEmpty l := by
  cases l with
  | nil => exact absurd rfl h
  | cons a t => rfl

/-- The engine scan equals the reference split followed by the trailing-empty
emission rule, for every lookbehind state consistent with the text (the
lookbehind character is a backslash only if the next character is not a
semicolon — escaped semicolons are consumed pairwise by the reference split). -/
theorem onigSplitAux_splitEscAware :
    ∀ (rest : List Char) (prev : Option Char) (acc : List Char),
      (prev = some '\\' → rest.head? ≠ some ';') →
      onigSplitAux prev acc rest
        = dropLastEmpty (mapFirst (fun t => acc.reverse ++ t) (splitEscAware rest)) := by
  intro rest
  induction rest using splitEscAware.induct with
  | case1 =>
    intro prev acc hyp
    by_cases ha : acc = []
    · subst ha; rfl
    · simp [onigSplitAux, splitEscAware, mapFirst, dropLastEmpty, List.isEmpty_iff, ha]
  | case2 =>
    intro prev acc hyp
    have hp : prev ≠ some '\\' := fun hprev => (hyp hprev) rfl
    rw [onigSplitAux_cons_split prev acc [] hp]
    simp [onigSplitAux, splitEscAware, mapFirst, dropLastEmpty]
  | case3 c h =>
    intro prev acc hyp
    rw [onigSplitAux_cons_nosplit prev acc c [] (fun hh => h hh.1)]
    simp [onigSplitAux, splitEscAware, mapFirst, dropLastEmpty, List.isEmpty_iff, h]
  | case4 c2 rest ih =>
    intro prev acc hyp
    have hp : prev ≠ some '\\' := fun hprev => (hyp hprev) rfl
    have ihh := ih (some ';') [] (fun hh => absurd hh (by decide))
    simp only [List.reverse_nil, List.nil_append, mapFirst_id] at ihh
    calc onigSplitAux prev acc (';' :: c2 :: rest)
        = acc.reverse :: onigSplitAux (some ';') [] (c2 :: rest) :=
          onigSplitAux_cons_split prev acc (c2 :: rest) hp
      _ = acc.reverse :: dropLastEmpty (splitEscAware (c2 :: rest)) := by rw [ihh]
      _ = dropLastEmpty (mapFirst (fun t => acc.reverse ++ t)
            (splitEscAware (';' :: c2 :: rest))) := by
          rw [show splitEscAware (';' :: c2 :: rest) = [] :: splitEscAware (c2 :: rest) from by
              simp [splitEscAware]]
          rw [show mapFirst (fun t => acc.reverse ++ t) ([] :: splitEscAware (c2 :: rest))
                = (acc.reverse ++ []) :: splitEscAware (c2 :: rest) from rfl]
          rw [dropLastEmpty_cons _ _ (splitEscAware_ne_nil _), List.append_nil]
  | case5 c1 c2 rest h1 h2 ih =>
    intro prev acc hyp
    obtain ⟨rfl, rfl⟩ := h2
    have ihh := ih (some ';') (';' :: '\\' :: acc) (fun hh => absurd hh (by decide))
    calc onigSplitAux prev acc ('\\' :: ';' :: rest)
        = onigSplitAux (some ';') (';' :: '\\' :: acc) rest := by
          rw [onigSplitAux_cons_nosplit prev acc '\\' (';' :: rest)
            (fun hh => absurd hh.1 (by decide))]
          rw [onigSplitAux_cons_nosplit (some '\\') ('\\' :: acc) ';' rest
            (fun hh => (hh.2) rfl)]
      _ = dropLastEmpty (mapFirst (fun t => (';' :: '\\' :: acc).reverse ++ t)
            (splitEscAware rest)) := ihh
      _ = dropLastEmpty (mapFirst (fun t => acc.reverse ++ t)
            (splitEscAware ('\\' :: ';' :: rest))) := by
          rw [show splitEscAware ('\\' :: ';' :: rest)
                = mapFirst (fun t => '\\' :: ';' :: t) (splitEscAware rest) from by
              simp [splitEscAware]]
          rw [mapFirst_mapFirst]
          have hfun : (fun t => (';' :: '\\' :: acc).reverse ++ t)
              = (fun t => acc.reverse ++ '\\' :: ';' :: t) := by
            funext t
            simp [List.reverse_cons, List.append_assoc]
          rw [hfun]
  | case6 c1 c2 rest h1 h2 ih =>
    intro prev acc hyp
    have ihh := ih (some c1) (c1 :: acc) (by
      intro hh hhd
      have hc1 : c1 = '\\' := by injection hh
      have hc2 : c2 = ';' := by
        have h3 : some c2 = some ';' := hhd
        injection h3
      exact h2 ⟨hc1, hc2⟩)
    calc onigSplitAux prev acc (c1 :: c2 :: rest)
        = onigSplitAux (some c1) (c1 :: acc) (c2 :: rest) :=
          onigSplitAux_cons_nosplit prev acc c1 (c2 :: rest) (fun hh => h1 hh.1)
      _ = dropLastEmpty (mapFirst (fun t => (c1 :: acc).reverse ++ t)
            (splitEscAware (c2 :: rest))) := ihh
      _ = dropLastEmpty (mapFirst (fun t => acc.reverse ++ t)
            (splitEscAware (c1 :: c2 :: rest))) := by
          rw [show splitEscAware (c1 :: c2 :: rest)
                = mapFirst (fun t => c1 :: t) (splitEscAware (c2 :: rest)) from by
              simp [splitEscAware, h1, h2]]
          rw [mapFirst_mapFirst]
          have hfun : (fun t => (c1 :: acc).reverse ++ t)
              = (fun t => acc.reverse ++ c1 :: t) := by
            funext t
            simp [List.reverse_cons, List.append_assoc]
          rw [hfun]

/-- C5: the delimiter split used by the value parser cuts the input exactly at
each semicolon not immediately preceded by a backslash — an escaped semicolon
never produces a split point, an unescaped one always does, and the escaping
backslash stays in the emitted elements: the engine's output equals the claim's
reference split (`splitEscAware`) followed by the engine's emission rule for the
text after the final match (`dropLastEmpty`, the trailing-delimiter behavior the
specification itself states in its split rule and end-to-end example). -/
theorem c5_split_at_unescaped_semicolons :
    ∀ s : String, onigSplitStr s = (dropLastEmpty (splitEscAware s.data)).map String.mk := by
  intro s
  unfold onigSplitStr onigSplit
  have h := onigSplitAux_splitEscAware s.data none [] (fun hh => Option.noConfusion hh)
  rw [h]
  simp only [List.reverse_nil, List.nil_append, mapFirst_id]

end Xdg
